import Mathlib

/-!
Shallow embedding of the pymatnest post-analysis pipeline (`main.py`) and
proofs about it.  The algorithmic core consists of: trajectory merging by
iteration number (`concat_all_traj_by_iteration`), the shell-boundary scan of
`calculate_rdf`, the energy-to-temperature interpolation of
`calculate_temperature_of_each_configuration` (via scipy's `interp1d`), and
the output loop of `write_datafile`.  Real-valued quantities are embedded as
rationals (the comparisons the program performs on them — equality with zero,
ordering — are exact there); machine integers as `Int`/`Nat`.
-/

set_option maxRecDepth 8000

/-- Configuration: one snapshot read from a trajectory file.  Fields mirror
the per-configuration metadata the program reads from `struc.info` in main.py
(`iter`, `ns_energy`, `ns_KE`, `volume`); `payload` stands for the opaque
positions/species data, which the program never inspects but which
distinguishes physically different snapshots. -/
structure Configuration where
  iter : Int
  ns_energy : ℚ
  ns_KE : ℚ
  volume : ℚ
  payload : Nat
  deriving DecidableEq, Repr

instance : Inhabited Configuration :=
  ⟨⟨0, 0, 0, 0, 0⟩⟩

/-- struc_store: the concatenation of the per-file configuration sequences in
file order, as built by the loop `struc_store += strucs` of
`concat_all_traj_by_iteration` (main.py lines 212-222). -/
def struc_store (files : List (List Configuration)) : List Configuration :=
  files.flatten

/-- data: the list of `iter` values of every configuration in concatenation
order, as built by `data.append(itera)` in the same loop (main.py lines
218-223). -/
def iterData (files : List (List Configuration)) : List Int :=
  (struc_store files).map (fun s => s.iter)

/-- Boolean test that a list of integers is non-decreasing. -/
def nondecreasing : List Int → Bool
  | [] => true
  | [_] => true
  | a :: b :: t => decide (a ≤ b) && nondecreasing (b :: t)

/-- Contract of `np.argsort(data)` (main.py line 224): it returns a
permutation `perm` of the index range `0 .. len(data) - 1` such that reading
`data` through `perm` is non-decreasing.  NumPy's default sort kind
(quicksort, an introsort) guarantees exactly this and does NOT promise
stability, so which of the valid permutations comes back on tied keys is an
implementation detail (`npArgsort` below reproduces the reference introsort).
`np.argsort` is external library code, so it enters the embedding through
this documented contract. -/
def isArgsortOf (data : List Int) (perm : List Nat) : Bool :=
  decide (perm.length = data.length) &&
  (List.range data.length).all (fun k => decide (k ∈ perm)) &&
  nondecreasing (perm.map (fun i => data.getD i 0))

/-- strucs_sorted: `[struc_store[i] for i in sort_ind]` (main.py line 225) for
a given argsort permutation `sort_ind`.  This list, written to
`{prefix}.traj.ordered.extxyz`, is the merged trajectory. -/
def concat_all_traj_by_iteration (files : List (List Configuration))
    (sort_ind : List Nat) : List Configuration :=
  sort_ind.map (fun i => (struc_store files).getD i default)

/-- Python's builtin `round` on an exactly represented value: round half to
even. -/
def pyRound (q : ℚ) : Int :=
  if q - ⌊q⌋ < 1/2 then ⌊q⌋
  else if 1/2 < q - ⌊q⌋ then ⌊q⌋ + 1
  else if ⌊q⌋ % 2 = 0 then ⌊q⌋ else ⌊q⌋ + 1

/-- Outcome of the shell-detection block of `calculate_rdf` (main.py lines
271-296): either a cutoff radius stored into `config.args.qw_cut`, or a
process abort.  The abort path is the bare Python `exit()` on line 289, which
terminates the process with exit status 0; the status is part of the model so
that exit-code behaviour can be stated. -/
inductive RdfOutcome where
  | aborted (exitCode : Nat)
  | cutoff (radius : ℚ)
  deriving DecidableEq, Repr

/-- The scan `for i in range(1, len(r))` of main.py lines 278-284, translated
with explicit loop state: `found`, `index_end_of_first_shell` (here `endIdx`)
and the break that sets `index_start_of_second_shell` (the second component
of the result).  `n` is `len(r)`. -/
def shellLoop (value : List ℚ) (n : Nat) (i : Nat) (found : Bool)
    (endIdx : Option Nat) : Option Nat × Option Nat :=
  if h : i < n then
    let isEnd := value.getD i 0 = 0 ∧ value.getD (i - 1) 0 ≠ 0
    let endIdx' := if isEnd then some i else endIdx
    let found' := if isEnd then true else found
    if found' = true ∧ value.getD i 0 ≠ 0 then (endIdx', some i)
    else shellLoop value n (i + 1) found' endIdx'
  else (endIdx, none)
termination_by n - i

/-- Shell-boundary detection and cutoff selection of `calculate_rdf`
(main.py lines 271-296).  The curve is the two-column content of
`allrdf.out` as produced by `np.loadtxt(..., usecols=(0, 1), unpack=True)`:
`r` is the first column, `value` the second.  On success the chosen index is
`round(((start - end) / 2) + end)` — Python round of the whole expression —
and the cutoff is `r[index]`; if either boundary index is still None the
program prints a message and calls the bare `exit()`. -/
def shellCutoff (curve : List (ℚ × ℚ)) : RdfOutcome :=
  let r := curve.map Prod.fst
  let value := curve.map Prod.snd
  match shellLoop value r.length 1 false none with
  | (some e, some s) =>
      RdfOutcome.cutoff (r.getD (pyRound (((s : ℚ) - (e : ℚ)) / 2 + (e : ℚ))).toNat 0)
  | _ => RdfOutcome.aborted 0

/-- State of `scipy.interpolate.interp1d(U, T, fill_value='extrapolate')`
(main.py line 371) after construction: the (x, y) sample pairs sorted by x
(scipy sorts with a stable `np.argsort(x, kind='mergesort')` because
`assume_sorted` defaults to False).  x is the energy column U, y the
temperature column T. -/
structure Interp1d where
  xs : List ℚ
  ys : List ℚ
  deriving DecidableEq, Repr

/-- Construction of `scipy.interpolate.interp1d(x, y)` with kind 'linear':
x and y must have equal length along the interpolation axis and at least two
sample points are required, otherwise a ValueError is raised.  Duplicate x
values are NOT rejected — no monotonicity or invertibility check exists.
The sample pairs are sorted by x. -/
def interp1d_make (x y : List ℚ) : Except String Interp1d :=
  if x.length ≠ y.length then
    Except.error "x and y arrays must be equal in length along interpolation axis"
  else if x.length < 2 then
    Except.error "x and y arrays must have at least 2 entries"
  else
    let pairs := (x.zip y).mergeSort (fun p q => decide (p.1 ≤ q.1))
    Except.ok ⟨pairs.map Prod.fst, pairs.map Prod.snd⟩

/-- np.searchsorted(xs, v) with the default side='left' on a sorted array:
the first index whose element is ≥ v, equivalently the number of elements
strictly below v. -/
def searchsortedLeft (xs : List ℚ) (v : ℚ) : Nat :=
  xs.countP (fun x => decide (x < v))

/-- Evaluation `f(xnew)` of the interpolant, following scipy's
`interp1d._call_linear` (the np.interp fast path is disabled when
fill_value='extrapolate'): the segment index is `searchsorted(xs, xnew)`
clipped to [1, len(xs) - 1]; the value is `slope * (xnew - x_lo) + y_lo` with
`slope = (y_hi - y_lo) / (x_hi - x_lo)`.  Out-of-range queries thus
extrapolate linearly from the nearest segment.  A degenerate segment
(x_hi = x_lo, which requires duplicate x values) makes the float slope NaN or
infinite; that is modelled as `none`. -/
def interp1d_call (f : Interp1d) (xnew : ℚ) : Option ℚ :=
  let n := f.xs.length
  let idx := min (max (searchsortedLeft f.xs xnew) 1) (n - 1)
  let xlo := f.xs.getD (idx - 1) 0
  let xhi := f.xs.getD idx 0
  let ylo := f.ys.getD (idx - 1) 0
  let yhi := f.ys.getD idx 0
  if xhi = xlo then none
  else some ((yhi - ylo) / (xhi - xlo) * (xnew - xlo) + ylo)

/-- calculate_temperature_of_each_configuration (main.py lines 348-376):
reads the ordered trajectory, loads columns T (0) and U (3) of analyse.dat,
builds `f = interp1d(U, T, fill_value='extrapolate')` and returns
`[f(ns_energy[i]) for i in range(len(traj))]`. -/
def calculate_temperature_of_each_configuration (traj : List Configuration)
    (T U : List ℚ) : Except String (List (Option ℚ)) :=
  (interp1d_make U T).map (fun f => traj.map (fun c => interp1d_call f c.ns_energy))

/-- One line appended to `{prefix}.data` (main.py lines 399-402). -/
structure OutputRecord where
  iter : Int
  energy : ℚ
  ke : ℚ
  volume : ℚ
  temp : Option ℚ
  q4 : ℚ
  w4 : ℚ
  q6 : ℚ
  w6 : ℚ
  deriving DecidableEq, Repr

/-- The output loop `for i in range(len(q4))` of write_datafile (main.py
lines 399-402), with Python IndexError semantics: for each i below len(q4)
all the indexed reads (`ns_iter[i]`, ..., `q6[i]`, `w6[i]`) must be in
bounds, otherwise the loop raises and the rows already written stay in the
file.  The lists `ns_iter`, `ns_energy`, `ns_ke`, `ns_volume` all come from
`traj` and `ns_temp` has one entry per trajectory configuration, so one
bound each for `traj` and `temps` covers them.  Returns the rows written
together with a flag that is true when the loop finished without raising.
No length check of any kind happens before the loop. -/
def write_datafile_loop (traj : List Configuration) (temps : List (Option ℚ))
    (q4 w4 q6 w6 : List ℚ) (i : Nat) : List OutputRecord × Bool :=
  if h : i < q4.length then
    if i < traj.length ∧ i < temps.length ∧ i < w4.length ∧ i < q6.length ∧
        i < w6.length then
      let c := traj.getD i default
      let row : OutputRecord :=
        { iter := c.iter, energy := c.ns_energy, ke := c.ns_KE,
          volume := c.volume, temp := temps.getD i none, q4 := q4.getD i 0,
          w4 := w4.getD i 0, q6 := q6.getD i 0, w6 := w6.getD i 0 }
      let rest := write_datafile_loop traj temps q4 w4 q6 w6 (i + 1)
      (row :: rest.1, rest.2)
    else ([], false)
  else ([], true)
termination_by q4.length - i

/-- write_datafile (main.py lines 378-404): computes the per-configuration
temperatures, re-reads the ordered trajectory, loads the q4/w4 and q6/w6
tables and appends one line per q4 entry to `{prefix}.data`. -/
def write_datafile (traj : List Configuration) (T U : List ℚ)
    (q4 w4 q6 w6 : List ℚ) : Except String (List OutputRecord × Bool) :=
  (calculate_temperature_of_each_configuration traj T U).map
    (fun temps => write_datafile_loop traj temps q4 w4 q6 w6 0)

/-- Swap of two positions of the index array (INTP_SWAP in numpy's npysort
sources); out-of-range positions leave the list unchanged, and all uses here
are in range. -/
def lswap (a : List Nat) (i j : Nat) : List Nat :=
  let ai := a.getD i 0
  let aj := a.getD j 0
  (a.set i aj).set j ai

/-- Sort key seen through the index array: `v[a[i]]`. -/
def keyAt (v : List Int) (a : List Nat) (i : Nat) : Int :=
  v.getD (a.getD i 0) 0

/-- The `do ++pi; while (v[*pi] < vp)` scan of numpy's aquicksort partition:
first position strictly right of `pi` whose key is not below the pivot.  The
fuel argument only bounds the recursion; the pivot copy at the right end of
the range stops the scan before the fuel runs out. -/
def aqsScanR (v : List Int) (vp : Int) (a : List Nat) (pi : Nat) : Nat → Nat
  | 0 => pi + 1
  | fuel + 1 =>
    let pi' := pi + 1
    if keyAt v a pi' < vp then aqsScanR v vp a pi' fuel else pi'

/-- The `do --pj; while (vp < v[*pj])` scan of numpy's aquicksort partition:
first position strictly left of `pj` whose key is not above the pivot. -/
def aqsScanL (v : List Int) (vp : Int) (a : List Nat) (pj : Nat) : Nat → Nat
  | 0 => pj - 1
  | fuel + 1 =>
    let pj' := pj - 1
    if vp < keyAt v a pj' then aqsScanL v vp a pj' fuel else pj'

/-- The Hoare partition exchange loop of numpy's aquicksort: scan from both
ends, stop when the pointers cross, otherwise swap and continue.  Returns the
final array and the final left pointer `pi`. -/
def aqsPartLoop (v : List Int) (vp : Int) : List Nat → Nat → Nat → Nat → List Nat × Nat
  | a, pi, _, 0 => (a, pi)
  | a, pi, pj, fuel + 1 =>
    let pi' := aqsScanR v vp a pi (v.length + 2)
    let pj' := aqsScanL v vp a pj (v.length + 2)
    if pi' ≥ pj' then (a, pi')
    else aqsPartLoop v vp (lswap a pi' pj') pi' pj' fuel

/-- Inner shifting loop of numpy's argsort insertion sort: shift elements of
the range right while their key is above `vp`; returns the array and the
insertion position. -/
def ainsInner (v : List Int) (pl : Nat) (vp : Int) : List Nat → Nat → Nat → List Nat × Nat
  | a, pj, 0 => (a, pj)
  | a, pj, fuel + 1 =>
    if pl < pj ∧ vp < keyAt v a (pj - 1) then
      ainsInner v pl vp (a.set pj (a.getD (pj - 1) 0)) (pj - 1) fuel
    else (a, pj)

/-- Insertion sort on the subrange [pl, pr] of the index array (the small-range
path of numpy's aquicksort, SMALL_QUICKSORT = 15). -/
def ainsLoop (v : List Int) (pl pr : Nat) : List Nat → Nat → Nat → List Nat
  | a, _, 0 => a
  | a, pi, fuel + 1 =>
    if pi ≤ pr then
      let vi := a.getD pi 0
      let vp := v.getD vi 0
      let res := ainsInner v pl vp a pi (pi + 1)
      ainsLoop v pl pr (res.1.set res.2 vi) (pi + 1) fuel
    else a

/-- Sift-down of numpy's aheapsort, on the 1-based subrange view
`a[k] = list position base + k - 1`, heap size `n`, element `tmp`. -/
def ahsSift (v : List Int) (base n : Nat) (tmp : Nat) : List Nat → Nat → Nat → Nat → List Nat
  | a, i, _, 0 => a.set (base + i - 1) tmp
  | a, i, j, fuel + 1 =>
    if j ≤ n then
      let j' := if j < n ∧ keyAt v a (base + j - 1) < keyAt v a (base + j) then j + 1 else j
      if v.getD tmp 0 < keyAt v a (base + j' - 1) then
        ahsSift v base n tmp (a.set (base + i - 1) (a.getD (base + j' - 1) 0)) j' (j' + j') fuel
      else a.set (base + i - 1) tmp
    else a.set (base + i - 1) tmp

/-- Heap construction phase of numpy's aheapsort: sift down from l = n >> 1
down to 1. -/
def ahsBuild (v : List Int) (base n : Nat) : List Nat → Nat → List Nat
  | a, 0 => a
  | a, l' + 1 =>
    let l := l' + 1
    let tmp := a.getD (base + l - 1) 0
    let a' := ahsSift v base n tmp a l (2 * l) (2 * n + 4)
    ahsBuild v base n a' l'

/-- Extraction phase of numpy's aheapsort: repeatedly move the heap maximum
to the end of the range and sift the displaced element down. -/
def ahsExtract (v : List Int) (base : Nat) : List Nat → Nat → List Nat
  | a, 0 => a
  | a, 1 => a
  | a, m + 2 =>
    let n := m + 2
    let tmp := a.getD (base + n - 1) 0
    let a1 := a.set (base + n - 1) (a.getD base 0)
    let a2 := ahsSift v base (n - 1) tmp a1 1 2 (2 * n + 4)
    ahsExtract v base a2 (n - 1)

/-- numpy's aheapsort on the subrange of length n starting at list position
pl (the introsort depth-limit fallback). -/
def aheapsort (v : List Int) (a : List Nat) (pl n : Nat) : List Nat :=
  ahsExtract v pl (ahsBuild v pl n a (n >>> 1)) n

/-- Main loop of numpy's aquicksort_ (npysort quicksort for argsort):
median-of-three pivot, Hoare partition, explicit stack holding the larger
side, insertion sort below SMALL_QUICKSORT = 15 elements, heapsort once the
depth budget `2 * msb(n)` is spent.  `depth_limit--` in the C source is a
post-decrement, so both branches continue with `depth - 1`. -/
def aqsMain (v : List Int) : List Nat → Nat → Nat → Int → List (Nat × Nat) → Nat → List Nat
  | a, _, _, _, _, 0 => a
  | a, pl, pr, depth, stack, fuel + 1 =>
    if pr - pl > 15 then
      if depth < 0 then
        let a' := aheapsort v a pl (pr - pl + 1)
        match stack with
        | [] => a'
        | (pl', pr') :: rest => aqsMain v a' pl' pr' (depth - 1) rest fuel
      else
        let pm := pl + (pr - pl) / 2
        let a1 := if keyAt v a pm < keyAt v a pl then lswap a pm pl else a
        let a2 := if keyAt v a1 pr < keyAt v a1 pm then lswap a1 pr pm else a1
        let a3 := if keyAt v a2 pm < keyAt v a2 pl then lswap a2 pm pl else a2
        let vp := keyAt v a3 pm
        let a4 := lswap a3 pm (pr - 1)
        let res := aqsPartLoop v vp a4 pl (pr - 1) (v.length + 2)
        let a5 := lswap res.1 res.2 (pr - 1)
        let pi := res.2
        if pi - pl < pr - pi then
          aqsMain v a5 pl (pi - 1) (depth - 1) ((pi + 1, pr) :: stack) fuel
        else
          aqsMain v a5 (pi + 1) pr (depth - 1) ((pl, pi - 1) :: stack) fuel
    else
      let a' := ainsLoop v pl pr a (pl + 1) (pr + 2 - pl)
      match stack with
      | [] => a'
      | (pl', pr') :: rest => aqsMain v a' pl' pr' depth rest fuel

/-- np.argsort(data) for a one-dimensional integer array with the default
kind='quicksort': numpy's introspective quicksort over an index array,
reproduced from the generic npysort implementation (platform SIMD variants
differ in tie order but are likewise unstable).  Initial index array is
0..n-1, depth budget 2 * msb(n). -/
def npArgsort (data : List Int) : List Nat :=
  aqsMain data (List.range data.length) 0 (data.length - 1)
    ((Nat.log2 data.length : Int) * 2) [] (4 * data.length + 16)

/-- Bool statement that the merged sequence keeps every pair of
equal-iteration input configurations in their concatenation order: for input
positions p < q with equal `iter`, the occurrence of input p's configuration
comes before that of input q's in the output (configurations are looked up by
value, so inputs whose configurations are pairwise distinct make this the
intended relative-order statement). -/
def tiesKeepOrder (files : List (List Configuration)) (sort_ind : List Nat) : Bool :=
  let l := struc_store files
  let out := concat_all_traj_by_iteration files sort_ind
  (List.range l.length).all fun p =>
    (List.range l.length).all fun q =>
      !(decide (p < q) && decide ((l.getD p default).iter = (l.getD q default).iter)) ||
      decide (out.indexOf (l.getD p default) < out.indexOf (l.getD q default))

/-- Seventeen configurations sharing iteration 5 in one trajectory file;
payloads 0..16 keep them pairwise distinct. -/
def c1files : List (List Configuration) :=
  [(List.range 17).map (fun k => ⟨5, 0, 0, 0, k⟩)]

/-- The index permutation numpy's introsort returns on seventeen equal keys
(equals `npArgsort (iterData c1files)`). -/
def c1perm : List Nat :=
  [0, 14, 13, 12, 11, 10, 9, 15, 8, 6, 5, 4, 3, 2, 1, 7, 16]

/-- Small two-file trajectory set used to instantiate the merge theorems:
iterations 3 / 1, 2. -/
def wfiles : List (List Configuration) :=
  [[⟨3, 0, 0, 0, 0⟩], [⟨1, 0, 0, 0, 1⟩, ⟨2, 0, 0, 0, 2⟩]]

/-- An argsort permutation for `iterData wfiles = [3, 1, 2]` (it is the one
numpy returns). -/
def wperm : List Nat := [1, 2, 0]

/-- The spec's shell-detection example: densities [1,1,0,0,0,1,1] at radii
[0.1, ..., 0.7]. -/
def specShellCurve : List (ℚ × ℚ) :=
  [(1/10, 1), (2/10, 1), (3/10, 0), (4/10, 0), (5/10, 0), (6/10, 1), (7/10, 1)]

/-- A curve whose first gap has odd width starting at an odd index:
densities [1,0,0,0,1] at radii [0.1, ..., 0.5], so
end-of-first-shell = 1 and start-of-second-shell = 4. -/
def oddGapCurve : List (ℚ × ℚ) :=
  [(1/10, 1), (2/10, 0), (3/10, 0), (4/10, 0), (5/10, 1)]

/-- A density curve that never reaches zero: shell detection must fail on
it. -/
def noZeroCurve : List (ℚ × ℚ) :=
  [(1/10, 1), (2/10, 1), (3/10, 1)]

/-- Two configurations (iterations 0 and 1, energies 1 and 2) used for the
record-assembly and temperature examples. -/
def c2traj : List Configuration :=
  [⟨0, 1, 0, 0, 0⟩, ⟨1, 2, 0, 0, 1⟩]

lemma isArgsortOf_parts {data : List Int} {perm : List Nat}
    (h : isArgsortOf data perm = true) :
    perm.length = data.length ∧ (∀ k < data.length, k ∈ perm) ∧
    nondecreasing (perm.map (fun i => data.getD i 0)) = true := by
  simp only [isArgsortOf, Bool.and_eq_true, decide_eq_true_eq, List.all_eq_true,
    List.mem_range] at h
  exact ⟨h.1.1, fun k hk => h.1.2 k hk, h.2⟩

lemma isArgsortOf_range_perm {data : List Int} {perm : List Nat}
    (h : isArgsortOf data perm = true) :
    (List.range data.length).Perm perm := by
  obtain ⟨hlen, hmem, _⟩ := isArgsortOf_parts h
  have hsub : (List.range data.length).Subperm perm :=
    List.subperm_of_subset (List.nodup_range data.length)
      (fun k hk => hmem k (List.mem_range.mp hk))
  exact hsub.perm_of_length_le (by simp [hlen])

lemma isArgsortOf_mem_lt {data : List Int} {perm : List Nat}
    (h : isArgsortOf data perm = true) : ∀ i ∈ perm, i < data.length := by
  intro i hi
  have := ((isArgsortOf_range_perm h).mem_iff (a := i)).mpr hi
  exact List.mem_range.mp this

lemma nondecreasing_chain : ∀ l : List Int, nondecreasing l = true →
    l.Chain' (fun a b => a ≤ b)
  | [], _ => List.chain'_nil
  | [_], _ => List.chain'_singleton _
  | a :: b :: t, h => by
    simp only [nondecreasing, Bool.and_eq_true, decide_eq_true_eq] at h
    exact List.Chain'.cons h.1 (nondecreasing_chain (b :: t) h.2)

lemma nondecreasing_pairwise {l : List Int} (h : nondecreasing l = true) :
    l.Pairwise (· ≤ ·) :=
  List.chain'_iff_pairwise.mp (nondecreasing_chain l h)

lemma map_getD_range {α : Type} (l : List α) (d : α) :
    (List.range l.length).map (fun i => l.getD i d) = l := by
  apply List.ext_getElem (by simp)
  intro i h1 h2
  simp [List.getD_eq_getElem, h2]

lemma merged_iter_eq (files : List (List Configuration)) (sort_ind : List Nat)
    (h : isArgsortOf (iterData files) sort_ind = true) :
    (concat_all_traj_by_iteration files sort_ind).map (fun c => c.iter) =
      sort_ind.map (fun i => (iterData files).getD i 0) := by
  unfold concat_all_traj_by_iteration
  rw [List.map_map]
  apply List.map_congr_left
  intro i hi
  have hlt : i < (struc_store files).length := by
    have := isArgsortOf_mem_lt h i hi
    simpa [iterData] using this
  have hlt2 : i < ((struc_store files).map (fun s => s.iter)).length := by simpa using hlt
  simp only [Function.comp, iterData]
  rw [List.getD_eq_getElem _ _ hlt2, List.getD_eq_getElem _ _ hlt]
  simp

lemma merged_iter_pairwise (files : List (List Configuration)) (sort_ind : List Nat)
    (h : isArgsortOf (iterData files) sort_ind = true) :
    ((concat_all_traj_by_iteration files sort_ind).map (fun c => c.iter)).Pairwise (· ≤ ·) := by
  rw [merged_iter_eq files sort_ind h]
  exact nondecreasing_pairwise (isArgsortOf_parts h).2.2

/-- C6: for every trajectory set and every permutation satisfying the
np.argsort contract, the merged sequence has length equal to the sum of the
per-file sequence lengths, and its `iter` values are non-decreasing. -/
theorem merge_length_and_sorted (files : List (List Configuration)) (sort_ind : List Nat)
    (h : isArgsortOf (iterData files) sort_ind = true) :
    (concat_all_traj_by_iteration files sort_ind).length = (files.map List.length).sum ∧
    ((concat_all_traj_by_iteration files sort_ind).map (fun c => c.iter)).Pairwise (· ≤ ·) := by
  constructor
  · have hp := isArgsortOf_range_perm h
    have hlen : sort_ind.length = (iterData files).length := by
      simpa using hp.length_eq.symm
    simp only [concat_all_traj_by_iteration, List.length_map]
    rw [hlen]
    simp only [iterData, struc_store, List.length_map, List.length_flatten]
  · exact merged_iter_pairwise files sort_ind h

/-- Witness for C6 at the concrete trajectory set `wfiles` with numpy's
actual argsort permutation. -/
theorem merge_length_and_sorted_witness :
    isArgsortOf (iterData wfiles) wperm = true ∧
    ((concat_all_traj_by_iteration wfiles wperm).length = (wfiles.map List.length).sum ∧
     ((concat_all_traj_by_iteration wfiles wperm).map (fun c => c.iter)).Pairwise (· ≤ ·)) :=
  ⟨by decide, merge_length_and_sorted wfiles wperm (by decide)⟩

/-- C10: for every trajectory set and every permutation satisfying the
np.argsort contract, the merged sequence is a permutation (multiset-equal
rearrangement) of the concatenation of the input per-file sequences. -/
theorem merge_is_permutation (files : List (List Configuration)) (sort_ind : List Nat)
    (h : isArgsortOf (iterData files) sort_ind = true) :
    (concat_all_traj_by_iteration files sort_ind).Perm (struc_store files) := by
  have hp := (isArgsortOf_range_perm h).symm
  have hmap := hp.map (fun i => (struc_store files).getD i default)
  have heq : (List.range (iterData files).length).map
      (fun i => (struc_store files).getD i default) = struc_store files := by
    have hl : (iterData files).length = (struc_store files).length := by simp [iterData]
    rw [hl]
    exact map_getD_range _ _
  unfold concat_all_traj_by_iteration
  have hres := hmap
  rw [heq] at hres
  exact hres

/-- Witness for C10 at the concrete trajectory set `wfiles`. -/
theorem merge_is_permutation_witness :
    isArgsortOf (iterData wfiles) wperm = true ∧
    (concat_all_traj_by_iteration wfiles wperm).Perm (struc_store wfiles) :=
  ⟨by decide, merge_is_permutation wfiles wperm (by decide)⟩

/-- C1 (amended): equal-`iteration` ties are NOT guaranteed to keep their
input order (numpy's default argsort is unstable); what does hold is that any
two input configurations with distinct `iteration` values appear in ascending
iteration order: if the configuration placed at output position a has a
strictly smaller `iter` than the one placed at output position b, then
a comes first. -/
theorem merge_distinct_iteration_order (files : List (List Configuration))
    (sort_ind : List Nat) (h : isArgsortOf (iterData files) sort_ind = true)
    (a b : Nat) (ha : a < sort_ind.length) (hb : b < sort_ind.length)
    (hlt : ((struc_store files).getD (sort_ind.getD a 0) default).iter <
           ((struc_store files).getD (sort_ind.getD b 0) default).iter) :
    a < b := by
  by_contra hab
  push_neg at hab
  rcases Nat.eq_or_lt_of_le hab with heq | hba
  · rw [heq] at hlt
    exact lt_irrefl _ hlt
  · have hpw := merged_iter_pairwise files sort_ind h
    have hble : b < ((concat_all_traj_by_iteration files sort_ind).map
        (fun c => c.iter)).length := by
      simpa [concat_all_traj_by_iteration] using hb
    have hale : a < ((concat_all_traj_by_iteration files sort_ind).map
        (fun c => c.iter)).length := by
      simpa [concat_all_traj_by_iteration] using ha
    have hle := List.pairwise_iff_get.mp hpw ⟨b, hble⟩ ⟨a, hale⟩ (Fin.mk_lt_mk.mpr hba)
    rw [List.getD_eq_getElem sort_ind 0 ha, List.getD_eq_getElem sort_ind 0 hb] at hlt
    simp only [List.get_eq_getElem, List.getElem_map, concat_all_traj_by_iteration] at hle
    exact absurd hlt (not_lt.mpr hle)

/-- Witness for the amended C1 at the concrete trajectory set `wfiles`:
iterations 1 and 2 land at output positions 0 and 1. -/
theorem merge_distinct_iteration_order_witness :
    isArgsortOf (iterData wfiles) wperm = true ∧
    ((struc_store wfiles).getD (wperm.getD 0 0) default).iter <
      ((struc_store wfiles).getD (wperm.getD 1 0) default).iter ∧
    (0 : Nat) < 1 :=
  ⟨by decide, by decide,
    merge_distinct_iteration_order wfiles wperm (by decide) 0 1 (by decide) (by decide)
      (by decide)⟩

/-- C1 is false as stated: on seventeen configurations that all share
iteration 5, numpy's introsort returns the permutation `c1perm`, which
satisfies the argsort contract but reverses the input order of (among
others) the tied configurations at input positions 1 and 14. -/
theorem merge_stability_counterexample :
    npArgsort (iterData c1files) = c1perm ∧
    isArgsortOf (iterData c1files) c1perm = true ∧
    tiesKeepOrder c1files c1perm = false := by
  refine ⟨by decide, by decide, by decide⟩

lemma shellLoop_prefound_none : ∀ (k : Nat) (value : List ℚ) (n i : Nat), n - i ≤ k →
    (∀ j, i ≤ j → j < n → ¬(value.getD j 0 = 0 ∧ value.getD (j - 1) 0 ≠ 0)) →
    shellLoop value n i false none = (none, none) := by
  intro k
  induction k with
  | zero =>
    intro value n i hk _
    rw [shellLoop, dif_neg (by omega)]
  | succ k ih =>
    intro value n i hk hno
    by_cases hin : i < n
    · rw [shellLoop, dif_pos hin]
      have hne := hno i (le_refl i) hin
      simp only [if_neg hne]
      rw [if_neg (by simp)]
      exact ih value n (i + 1) (by omega) (fun j hj hjn => hno j (by omega) hjn)
    · rw [shellLoop, dif_neg hin]

lemma shellLoop_step_skip (value : List ℚ) (n i : Nat) (found : Bool) (endIdx : Option Nat)
    (hin : i < n)
    (hnotend : ¬(value.getD i 0 = 0 ∧ value.getD (i - 1) 0 ≠ 0))
    (hnobreak : ¬(found = true ∧ value.getD i 0 ≠ 0)) :
    shellLoop value n i found endIdx = shellLoop value n (i + 1) found endIdx := by
  rw [shellLoop, dif_pos hin]
  simp only [if_neg hnotend]
  rw [if_neg hnobreak]

lemma shellLoop_step_break (value : List ℚ) (n i : Nat) (found : Bool) (endIdx : Option Nat)
    (hin : i < n)
    (hnotend : ¬(value.getD i 0 = 0 ∧ value.getD (i - 1) 0 ≠ 0))
    (hfound : found = true) (hnz : value.getD i 0 ≠ 0) :
    shellLoop value n i found endIdx = (endIdx, some i) := by
  rw [shellLoop, dif_pos hin]
  simp only [if_neg hnotend]
  rw [if_pos ⟨hfound, hnz⟩]

lemma shellLoop_step_end (value : List ℚ) (n i : Nat) (found : Bool) (endIdx : Option Nat)
    (hin : i < n)
    (hcond : value.getD i 0 = 0 ∧ value.getD (i - 1) 0 ≠ 0) :
    shellLoop value n i found endIdx = shellLoop value n (i + 1) true (some i) := by
  rw [shellLoop, dif_pos hin]
  simp only [if_pos hcond]
  rw [if_neg (by rintro ⟨-, h2⟩; exact h2 hcond.1)]

lemma shellLoop_found_nozero : ∀ (k : Nat) (value : List ℚ) (n e i : Nat), n - i ≤ k →
    e < i → value.getD e 0 = 0 →
    (∀ j, e < j → j < i → value.getD j 0 = 0) →
    (∀ j, i ≤ j → j < n → value.getD j 0 = 0) →
    shellLoop value n i true (some e) = (some e, none) := by
  intro k
  induction k with
  | zero =>
    intro value n e i hk _ _ _ _
    rw [shellLoop, dif_neg (by omega)]
  | succ k ih =>
    intro value n e i hk hei hve hzero hall
    by_cases hin : i < n
    · have hvi : value.getD i 0 = 0 := hall i (le_refl i) hin
      have hne : ¬(value.getD i 0 = 0 ∧ value.getD (i - 1) 0 ≠ 0) := by
        rintro ⟨-, hne1⟩
        rcases Nat.eq_or_lt_of_le (Nat.le_sub_one_of_lt hei) with heq | hlt
        · exact hne1 (heq ▸ hve)
        · exact hne1 (hzero (i - 1) hlt (by omega))
      rw [shellLoop_step_skip value n i true (some e) hin hne
        (by rintro ⟨-, hne2⟩; exact hne2 hvi)]
      refine ih value n e (i + 1) (by omega) (by omega) hve ?_ ?_
      · intro j hj hji
        rcases Nat.lt_or_ge j i with hji2 | hji2
        · exact hzero j hj hji2
        · have hje : j = i := by omega
          exact hje ▸ hvi
      · exact fun j hj hjn => hall j (by omega) hjn
    · rw [shellLoop, dif_neg hin]

lemma shellLoop_found_break : ∀ (k : Nat) (value : List ℚ) (n e i s : Nat), n - i ≤ k →
    e < i → i ≤ s → s < n → value.getD e 0 = 0 →
    (∀ j, e < j → j < s → value.getD j 0 = 0) →
    value.getD s 0 ≠ 0 →
    shellLoop value n i true (some e) = (some e, some s) := by
  intro k
  induction k with
  | zero =>
    intro value n e i s hk _ his hsn _ _ _
    omega
  | succ k ih =>
    intro value n e i s hk hei his hsn hve hzero hs
    have hin : i < n := by omega
    rcases Nat.eq_or_lt_of_le his with heq | hlt
    · subst heq
      have hne : ¬(value.getD i 0 = 0 ∧ value.getD (i - 1) 0 ≠ 0) := by
        rintro ⟨h0, -⟩
        exact hs h0
      exact shellLoop_step_break value n i true (some e) hin hne rfl hs
    · have hvi : value.getD i 0 = 0 := hzero i hei hlt
      have hne : ¬(value.getD i 0 = 0 ∧ value.getD (i - 1) 0 ≠ 0) := by
        rintro ⟨-, hne1⟩
        rcases Nat.eq_or_lt_of_le (Nat.le_sub_one_of_lt hei) with heq | hlt2
        · exact hne1 (heq ▸ hve)
        · exact hne1 (hzero (i - 1) hlt2 (by omega))
      rw [shellLoop_step_skip value n i true (some e) hin hne
        (by rintro ⟨-, hne2⟩; exact hne2 hvi)]
      exact ih value n e (i + 1) s (by omega) (by omega) hlt hsn hve hzero hs

lemma shellLoop_prefound_reach : ∀ (k : Nat) (value : List ℚ) (n i e : Nat), n - i ≤ k →
    i ≤ e → e < n →
    (∀ j, i ≤ j → j < e → ¬(value.getD j 0 = 0 ∧ value.getD (j - 1) 0 ≠ 0)) →
    value.getD e 0 = 0 → value.getD (e - 1) 0 ≠ 0 →
    shellLoop value n i false none = shellLoop value n (e + 1) true (some e) := by
  intro k
  induction k with
  | zero =>
    intro value n i e hk hie hen _ _ _
    omega
  | succ k ih =>
    intro value n i e hk hie hen hno hv0 hv1
    have hin : i < n := by omega
    rcases Nat.eq_or_lt_of_le hie with heq | hlt
    · subst heq
      exact shellLoop_step_end value n i false none hin ⟨hv0, hv1⟩
    · have hne := hno i (le_refl i) hlt
      rw [shellLoop_step_skip value n i false none hin hne (by simp)]
      exact ih value n (i + 1) e (by omega) (by omega) hen
        (fun j hj hje => hno j (by omega) hje) hv0 hv1

lemma pyRound_ge (q : ℚ) : q - 1/2 ≤ (pyRound q : ℚ) := by
  unfold pyRound
  split_ifs with h1 h2 h3
  · linarith
  · push_cast
    linarith [Int.lt_floor_add_one q]
  · linarith
  · push_cast
    linarith [Int.lt_floor_add_one q]

lemma pyRound_le_half (q : ℚ) : (pyRound q : ℚ) ≤ q + 1/2 := by
  unfold pyRound
  split_ifs with h1 h2 h3
  · push_cast
    linarith [Int.floor_le q]
  · push_cast
    linarith
  · push_cast
    linarith [Int.floor_le q]
  · push_cast
    linarith

lemma shellLoop_eq_of_first (value : List ℚ) (n e s : Nat)
    (h1e : 1 ≤ e) (hes : e < s) (hsn : s < n)
    (hv0 : value.getD e 0 = 0) (hv1 : value.getD (e - 1) 0 ≠ 0)
    (hfirst : ∀ j, 1 ≤ j → j < e → ¬(value.getD j 0 = 0 ∧ value.getD (j - 1) 0 ≠ 0))
    (hzero : ∀ j, e < j → j < s → value.getD j 0 = 0)
    (hs : value.getD s 0 ≠ 0) :
    shellLoop value n 1 false none = (some e, some s) := by
  rw [shellLoop_prefound_reach (n - 1) value n 1 e (by omega) h1e (by omega) hfirst hv0 hv1]
  exact shellLoop_found_break (n - (e + 1)) value n e (e + 1) s (by omega) (by omega)
    (by omega) hsn hv0 hzero hs

lemma shellLoop_eq_no_second (value : List ℚ) (n e : Nat)
    (h1e : 1 ≤ e) (hen : e < n)
    (hv0 : value.getD e 0 = 0) (hv1 : value.getD (e - 1) 0 ≠ 0)
    (hfirst : ∀ j, 1 ≤ j → j < e → ¬(value.getD j 0 = 0 ∧ value.getD (j - 1) 0 ≠ 0))
    (hzero : ∀ j, e < j → j < n → value.getD j 0 = 0) :
    shellLoop value n 1 false none = (some e, none) := by
  rw [shellLoop_prefound_reach (n - 1) value n 1 e (by omega) h1e hen hfirst hv0 hv1]
  refine shellLoop_found_nozero (n - (e + 1)) value n e (e + 1) (by omega) (by omega)
    hv0 ?_ ?_
  · intro j hj hji
    exact absurd hj (by omega)
  · exact fun j hj hjn => hzero j (by omega) hjn

lemma shellLoop_eq_none (value : List ℚ) (n : Nat)
    (hfirst : ∀ j, 1 ≤ j → j < n → ¬(value.getD j 0 = 0 ∧ value.getD (j - 1) 0 ≠ 0)) :
    shellLoop value n 1 false none = (none, none) :=
  shellLoop_prefound_none n value n 1 (by omega) hfirst

/-- C3 (amended): on every curve where detection succeeds, the
end-of-first-shell is the first index i ≥ 1 with density[i] = 0 and
density[i-1] ≠ 0, the start-of-second-shell is the first later index with
nonzero density, comparisons are exact equality with zero, and the cutoff is
the radius at index round(end + (start - end)/2) where Python's half-to-even
round is applied to the WHOLE expression (this differs from the claimed
end + round((start - end)/2) when end and start - end are both odd). -/
theorem shell_cutoff_spec (curve : List (ℚ × ℚ)) (e s : Nat)
    (h1e : 1 ≤ e) (hes : e < s) (hsn : s < curve.length)
    (hv0 : (curve.map Prod.snd).getD e 0 = 0)
    (hv1 : (curve.map Prod.snd).getD (e - 1) 0 ≠ 0)
    (hfirst : ∀ j, j < e → 1 ≤ j →
      ¬((curve.map Prod.snd).getD j 0 = 0 ∧ (curve.map Prod.snd).getD (j - 1) 0 ≠ 0))
    (hzero : ∀ j, j < s → e < j → (curve.map Prod.snd).getD j 0 = 0)
    (hs : (curve.map Prod.snd).getD s 0 ≠ 0) :
    shellCutoff curve =
      RdfOutcome.cutoff ((curve.map Prod.fst).getD
        (pyRound (((s : ℚ) - (e : ℚ)) / 2 + (e : ℚ))).toNat 0) := by
  simp only [shellCutoff]
  rw [shellLoop_eq_of_first (curve.map Prod.snd) (curve.map Prod.fst).length e s h1e hes
    (by simpa using hsn) hv0 hv1 (fun j h1 h2 => hfirst j h2 h1)
    (fun j h1 h2 => hzero j h2 h1) hs]

/-- Witness for the amended C3: the spec's own example curve, densities
[1,1,0,0,0,1,1] at radii 0.1..0.7, end = 2, start = 5, cutoff index
round(3.5) = 4, cutoff radius 0.5. -/
theorem shell_cutoff_spec_witness :
    shellCutoff specShellCurve = RdfOutcome.cutoff (1/2) := by
  have h := shell_cutoff_spec specShellCurve 2 5 (by decide) (by decide) (by decide)
    (by decide) (by decide) (by decide) (by decide) (by decide)
  rw [h]
  have hpr : pyRound ((((5 : ℕ) : ℚ) - ((2 : ℕ) : ℚ)) / 2 + ((2 : ℕ) : ℚ)) = 4 := by
    norm_num [pyRound]
  have hidx : (pyRound ((((5 : ℕ) : ℚ) - ((2 : ℕ) : ℚ)) / 2 + ((2 : ℕ) : ℚ))).toNat = 4 := by
    rw [hpr]
    decide
  rw [hidx]
  norm_num [specShellCurve]

/-- C3 as stated is false in its rounding formula: on densities [1,0,0,0,1]
at radii 0.1..0.5 the boundaries are end = 1 and start = 4; the code takes
the radius at round((4-1)/2 + 1) = round(2.5) = 2, i.e. 0.3, whereas the
claimed formula end + round((start-end)/2) = 1 + round(1.5) = 3 picks
0.4. -/
theorem shell_cutoff_formula_counterexample :
    shellCutoff oddGapCurve = RdfOutcome.cutoff (3/10) ∧
    (oddGapCurve.map Prod.fst).getD ((1 : Int) + pyRound (((4 : ℚ) - 1) / 2)).toNat 0 = 2/5 ∧
    (3 : ℚ)/10 ≠ 2/5 := by
  refine ⟨?_, ?_, by norm_num⟩
  · have hloop := shellLoop_eq_of_first (oddGapCurve.map Prod.snd)
      (oddGapCurve.map Prod.fst).length 1 4 (by decide) (by decide) (by decide) (by decide)
      (by decide) (by intro j h1 h2; exact absurd h2 (by omega))
      (by intro j h1 h2; interval_cases j <;> decide) (by decide)
    simp only [shellCutoff]
    rw [hloop]
    dsimp only
    have hpr : pyRound ((((4 : ℕ) : ℚ) - ((1 : ℕ) : ℚ)) / 2 + ((1 : ℕ) : ℚ)) = 2 := by
      norm_num [pyRound]
    have hidx : (pyRound ((((4 : ℕ) : ℚ) - ((1 : ℕ) : ℚ)) / 2 + ((1 : ℕ) : ℚ))).toNat = 2 := by
      rw [hpr]
      decide
    rw [hidx]
    norm_num [oddGapCurve]
  · have hpr2 : pyRound (((4 : ℚ) - 1) / 2) = 2 := by norm_num [pyRound]
    have hidx2 : ((1 : Int) + pyRound (((4 : ℚ) - 1) / 2)).toNat = 3 := by
      rw [hpr2]
      decide
    rw [hidx2]
    norm_num [oddGapCurve]

/-- C4 (amended): when either shell boundary cannot be found (the density
never crosses to zero after a nonzero value, or never returns to nonzero
after the first such crossing), the program synthesizes no fallback cutoff
and terminates the process — but via the bare Python exit(), so the exit
status is 0, not non-zero as claimed. -/
theorem shell_failure_aborts (curve : List (ℚ × ℚ))
    (h : (∀ j, j < curve.length → 1 ≤ j →
            ¬((curve.map Prod.snd).getD j 0 = 0 ∧
              (curve.map Prod.snd).getD (j - 1) 0 ≠ 0)) ∨
         (∃ e, e < curve.length ∧ 1 ≤ e ∧
            (curve.map Prod.snd).getD e 0 = 0 ∧
            (curve.map Prod.snd).getD (e - 1) 0 ≠ 0 ∧
            (∀ j, j < e → 1 ≤ j →
              ¬((curve.map Prod.snd).getD j 0 = 0 ∧
                (curve.map Prod.snd).getD (j - 1) 0 ≠ 0)) ∧
            (∀ j, j < curve.length → e < j → (curve.map Prod.snd).getD j 0 = 0))) :
    shellCutoff curve = RdfOutcome.aborted 0 ∧
    ∀ q, shellCutoff curve ≠ RdfOutcome.cutoff q := by
  have habort : shellCutoff curve = RdfOutcome.aborted 0 := by
    rcases h with hnone | ⟨e, hen, h1e, hv0, hv1, hfirst, hzero⟩
    · simp only [shellCutoff]
      rw [shellLoop_eq_none (curve.map Prod.snd) (curve.map Prod.fst).length
        (fun j h1 h2 => hnone j (by simpa using h2) h1)]
    · simp only [shellCutoff]
      rw [shellLoop_eq_no_second (curve.map Prod.snd) (curve.map Prod.fst).length e h1e
        (by simpa using hen) hv0 hv1 (fun j h1 h2 => hfirst j h2 h1)
        (fun j h1 h2 => hzero j (by simpa using h2) h1)]
  exact ⟨habort, fun q hq => by rw [habort] at hq; exact RdfOutcome.noConfusion hq⟩

/-- Witness for the amended C4 at the never-zero curve [1,1,1]. -/
theorem shell_failure_aborts_witness :
    shellCutoff noZeroCurve = RdfOutcome.aborted 0 ∧
    ∀ q, shellCutoff noZeroCurve ≠ RdfOutcome.cutoff q :=
  shell_failure_aborts noZeroCurve (Or.inl (by decide))

/-- C4 as stated is false in its exit-status part: on a density curve that
never reaches zero the program aborts through the bare exit() and the
process exit status is 0 — there is no non-zero status. -/
theorem shell_failure_exit_code_counterexample :
    shellCutoff noZeroCurve = RdfOutcome.aborted 0 ∧
    ∀ c : Nat, shellCutoff noZeroCurve = RdfOutcome.aborted c → c = 0 := by
  have h0 : shellCutoff noZeroCurve = RdfOutcome.aborted 0 := by
    simp only [shellCutoff]
    rw [shellLoop_eq_none (noZeroCurve.map Prod.snd) (noZeroCurve.map Prod.fst).length
      (by decide)]
  refine ⟨h0, fun c hc => ?_⟩
  have := h0.symm.trans hc
  injection this with h
  exact h.symm

/-- C9: whenever shell detection succeeds, the start-of-second-shell index is
strictly past the end-of-first-shell index, the density is zero from the end
index up to (but excluding) the start index and nonzero at the start index,
and the chosen cutoff index lies between the two boundary indices inclusive,
so the returned cutoff radius is a radius drawn from the inter-shell gap. -/
theorem shell_cutoff_in_gap (curve : List (ℚ × ℚ)) (c : ℚ)
    (h : shellCutoff curve = RdfOutcome.cutoff c) :
    ∃ e s idx : Nat, 1 ≤ e ∧ e < s ∧ s < curve.length ∧
      (∀ j, e ≤ j → j < s → (curve.map Prod.snd).getD j 0 = 0) ∧
      (curve.map Prod.snd).getD s 0 ≠ 0 ∧
      e ≤ idx ∧ idx ≤ s ∧ c = (curve.map Prod.fst).getD idx 0 := by
  by_cases hex : ∃ e, (1 ≤ e ∧ e < (curve.map Prod.fst).length) ∧
      ((curve.map Prod.snd).getD e 0 = 0 ∧ (curve.map Prod.snd).getD (e - 1) 0 ≠ 0)
  · have hPe := Nat.find_spec hex
    have hfirst : ∀ j, 1 ≤ j → j < Nat.find hex →
        ¬((curve.map Prod.snd).getD j 0 = 0 ∧ (curve.map Prod.snd).getD (j - 1) 0 ≠ 0) :=
      fun j h1 h2 hc => Nat.find_min hex h2 ⟨⟨h1, lt_trans h2 hPe.1.2⟩, hc⟩
    by_cases hsex : ∃ s2, (Nat.find hex < s2 ∧ s2 < (curve.map Prod.fst).length) ∧
        (curve.map Prod.snd).getD s2 0 ≠ 0
    · have hPs := Nat.find_spec hsex
      have hzero : ∀ j, Nat.find hex < j → j < Nat.find hsex →
          (curve.map Prod.snd).getD j 0 = 0 := by
        intro j h1 h2
        by_contra hne
        exact Nat.find_min hsex h2 ⟨⟨h1, lt_trans h2 hPs.1.2⟩, hne⟩
      have hloop := shellLoop_eq_of_first (curve.map Prod.snd) (curve.map Prod.fst).length
        (Nat.find hex) (Nat.find hsex) hPe.1.1 hPs.1.1 hPs.1.2 hPe.2.1 hPe.2.2 hfirst
        hzero hPs.2
      simp only [shellCutoff] at h
      rw [hloop] at h
      have h2 : RdfOutcome.cutoff ((curve.map Prod.fst).getD
          (pyRound ((((Nat.find hsex) : ℚ) - ((Nat.find hex) : ℚ)) / 2 +
            ((Nat.find hex) : ℚ))).toNat 0) = RdfOutcome.cutoff c := h
      injection h2 with hc2
      have hcast : ((Nat.find hex : ℚ)) + 1 ≤ ((Nat.find hsex : ℚ)) := by
        exact_mod_cast Nat.succ_le_of_lt hPs.1.1
      have hge := pyRound_ge ((((Nat.find hsex) : ℚ) - ((Nat.find hex) : ℚ)) / 2 +
        ((Nat.find hex) : ℚ))
      have hle := pyRound_le_half ((((Nat.find hsex) : ℚ) - ((Nat.find hex) : ℚ)) / 2 +
        ((Nat.find hex) : ℚ))
      have hgeZ : ((Nat.find hex : ℤ)) ≤ pyRound ((((Nat.find hsex) : ℚ) -
          ((Nat.find hex) : ℚ)) / 2 + ((Nat.find hex) : ℚ)) := by
        have : ((Nat.find hex : ℚ)) ≤ ((pyRound ((((Nat.find hsex) : ℚ) -
            ((Nat.find hex) : ℚ)) / 2 + ((Nat.find hex) : ℚ)) : ℤ) : ℚ) := by
          push_cast at hge
          linarith
        exact_mod_cast this
      have hleZ : pyRound ((((Nat.find hsex) : ℚ) - ((Nat.find hex) : ℚ)) / 2 +
          ((Nat.find hex) : ℚ)) ≤ ((Nat.find hsex : ℤ)) := by
        have : ((pyRound ((((Nat.find hsex) : ℚ) - ((Nat.find hex) : ℚ)) / 2 +
            ((Nat.find hex) : ℚ)) : ℤ) : ℚ) ≤ ((Nat.find hsex : ℚ)) := by
          push_cast at hle
          linarith
        exact_mod_cast this
      refine ⟨Nat.find hex, Nat.find hsex,
        (pyRound ((((Nat.find hsex) : ℚ) - ((Nat.find hex) : ℚ)) / 2 +
          ((Nat.find hex) : ℚ))).toNat,
        hPe.1.1, hPs.1.1, by simpa using hPs.1.2, ?_, hPs.2, by omega, by omega, hc2.symm⟩
      intro j hj1 hj2
      rcases Nat.eq_or_lt_of_le hj1 with heq | hlt
      · exact heq ▸ hPe.2.1
      · exact hzero j hlt hj2
    · exfalso
      have hnos := shellLoop_eq_no_second (curve.map Prod.snd) (curve.map Prod.fst).length
        (Nat.find hex) hPe.1.1 hPe.1.2 hPe.2.1 hPe.2.2 hfirst
        (fun j h1 h2 => by
          by_contra hne
          exact hsex ⟨j, ⟨h1, h2⟩, hne⟩)
      simp only [shellCutoff] at h
      rw [hnos] at h
      exact RdfOutcome.noConfusion h
  · exfalso
    have hnone := shellLoop_eq_none (curve.map Prod.snd) (curve.map Prod.fst).length
      (fun j h1 h2 hc => hex ⟨j, ⟨h1, h2⟩, hc⟩)
    simp only [shellCutoff] at h
    rw [hnone] at h
    exact RdfOutcome.noConfusion h

/-- Witness for C9 at the spec example curve: cutoff 0.5 lies in the gap
between indices 2 and 5. -/
theorem shell_cutoff_in_gap_witness :
    shellCutoff specShellCurve = RdfOutcome.cutoff (1/2) ∧
    (∃ e s idx : Nat, 1 ≤ e ∧ e < s ∧ s < specShellCurve.length ∧
      (∀ j, e ≤ j → j < s → (specShellCurve.map Prod.snd).getD j 0 = 0) ∧
      (specShellCurve.map Prod.snd).getD s 0 ≠ 0 ∧
      e ≤ idx ∧ idx ≤ s ∧ (1/2 : ℚ) = (specShellCurve.map Prod.fst).getD idx 0) := by
  have hloop := shellLoop_eq_of_first (specShellCurve.map Prod.snd)
    (specShellCurve.map Prod.fst).length 2 5 (by decide) (by decide) (by decide) (by decide)
    (by decide) (by intro j h1 h2; interval_cases j <;> decide)
    (by intro j h1 h2; interval_cases j <;> decide) (by decide)
  have hcut : shellCutoff specShellCurve = RdfOutcome.cutoff (1/2) := by
    simp only [shellCutoff]
    rw [hloop]
    dsimp only
    have hpr : pyRound ((((5 : ℕ) : ℚ) - ((2 : ℕ) : ℚ)) / 2 + ((2 : ℕ) : ℚ)) = 4 := by
      norm_num [pyRound]
    have hidx : (pyRound ((((5 : ℕ) : ℚ) - ((2 : ℕ) : ℚ)) / 2 + ((2 : ℕ) : ℚ))).toNat = 4 := by
      rw [hpr]
      decide
    rw [hidx]
    norm_num [specShellCurve]
  exact ⟨hcut, shell_cutoff_in_gap specShellCurve (1/2) hcut⟩

lemma write_datafile_loop_spec : ∀ (k : Nat) (traj : List Configuration)
    (temps : List (Option ℚ)) (q4 w4 q6 w6 : List ℚ) (i : Nat), q4.length - i ≤ k →
    (write_datafile_loop traj temps q4 w4 q6 w6 i).1.length =
        min q4.length (min traj.length (min temps.length (min w4.length
          (min q6.length w6.length)))) - i ∧
    ((write_datafile_loop traj temps q4 w4 q6 w6 i).2 = true ↔
        (q4.length ≤ i ∨ q4.length ≤ min traj.length (min temps.length (min w4.length
          (min q6.length w6.length))))) := by
  intro k
  induction k with
  | zero =>
    intro traj temps q4 w4 q6 w6 i hk
    rw [write_datafile_loop, dif_neg (by omega)]
    refine ⟨by simp; omega, by simp; omega⟩
  | succ k ih =>
    intro traj temps q4 w4 q6 w6 i hk
    by_cases hi : i < q4.length
    · rw [write_datafile_loop, dif_pos hi]
      by_cases hb : i < traj.length ∧ i < temps.length ∧ i < w4.length ∧ i < q6.length ∧
          i < w6.length
      · rw [if_pos hb]
        have hrec := ih traj temps q4 w4 q6 w6 (i + 1) (by omega)
        dsimp only
        obtain ⟨hb1, hb2, hb3, hb4, hb5⟩ := hb
        constructor
        · simp only [List.length_cons]
          rw [hrec.1]
          omega
        · rw [hrec.2]
          constructor
          · intro hc
            omega
          · intro hc
            omega
      · rw [if_neg hb]
        push_neg at hb
        constructor
        · simp only [List.length_nil]
          omega
        · simp only [Bool.false_eq_true, false_iff]
          intro hc
          omega
    · rw [write_datafile_loop, dif_neg hi]
      refine ⟨by simp; omega, by simp; omega⟩

lemma temps_c2traj : calculate_temperature_of_each_configuration c2traj [100, 200] [0, 10] =
    Except.ok [some 110, some 120] := by
  have hmk : interp1d_make [0, 10] [100, 200] = Except.ok ⟨[0, 10], [100, 200]⟩ := by
    simp [interp1d_make, List.mergeSort, List.merge]
  have hc1 : interp1d_call ⟨[0, 10], [100, 200]⟩ 1 = some 110 := by
    simp only [interp1d_call, searchsortedLeft]
    norm_num
  have hc2 : interp1d_call ⟨[0, 10], [100, 200]⟩ 2 = some 120 := by
    simp only [interp1d_call, searchsortedLeft]
    norm_num
  rw [calculate_temperature_of_each_configuration, hmk]
  simp only [Except.map, c2traj, List.map_cons, List.map_nil]
  rw [hc1, hc2]

/-- C2 (amended): write_datafile performs no length check at all.  It emits
one row per q4 entry: the number of rows written equals the minimum of the
source lengths, and the loop completes without error exactly when every
other source has at least as many entries as q4 (longer sources are silently
truncated; when some other source is shorter than q4, an IndexError aborts
the loop after the rows at earlier indices are already written).  No
AssemblyError or pre-emission length check exists. -/
theorem write_datafile_row_count (traj : List Configuration) (T U : List ℚ)
    (q4 w4 q6 w6 : List ℚ) (temps : List (Option ℚ))
    (h : calculate_temperature_of_each_configuration traj T U = Except.ok temps) :
    write_datafile traj T U q4 w4 q6 w6 =
      Except.ok (write_datafile_loop traj temps q4 w4 q6 w6 0) ∧
    (write_datafile_loop traj temps q4 w4 q6 w6 0).1.length =
      min q4.length (min traj.length (min temps.length (min w4.length
        (min q6.length w6.length)))) ∧
    ((write_datafile_loop traj temps q4 w4 q6 w6 0).2 = true ↔
      q4.length ≤ min traj.length (min temps.length (min w4.length
        (min q6.length w6.length)))) := by
  have hspec := write_datafile_loop_spec q4.length traj temps q4 w4 q6 w6 0 (by omega)
  refine ⟨?_, ?_, ?_⟩
  · rw [write_datafile, h]
    rfl
  · rw [hspec.1]
    omega
  · rw [hspec.2]
    constructor
    · intro hc
      omega
    · intro hc
      exact Or.inr hc

/-- Witness for the amended C2: all six sources of length 2 — two rows are
written and the loop completes. -/
theorem write_datafile_row_count_witness :
    calculate_temperature_of_each_configuration c2traj [100, 200] [0, 10] =
      Except.ok [some 110, some 120] ∧
    write_datafile c2traj [100, 200] [0, 10] [1/2, 3/5] [1/4, 2/5] [1/3, 1/5] [1/5, 1/6] =
      Except.ok (write_datafile_loop c2traj [some 110, some 120] [1/2, 3/5] [1/4, 2/5]
        [1/3, 1/5] [1/5, 1/6] 0) ∧
    (write_datafile_loop c2traj [some 110, some 120] [1/2, 3/5] [1/4, 2/5] [1/3, 1/5]
      [1/5, 1/6] 0).1.length = 2 ∧
    (write_datafile_loop c2traj [some 110, some 120] [1/2, 3/5] [1/4, 2/5] [1/3, 1/5]
      [1/5, 1/6] 0).2 = true := by
  have h := write_datafile_row_count c2traj [100, 200] [0, 10] [1/2, 3/5] [1/4, 2/5]
    [1/3, 1/5] [1/5, 1/6] [some 110, some 120] temps_c2traj
  refine ⟨temps_c2traj, h.1, ?_, h.2.2.mpr (by decide)⟩
  rw [h.2.1]
  decide

/-- C2 is false as stated: with a merged trajectory (and temperature
sequence) of length 2 but bond-order tables of length 1 — a length
mismatch — the assembler does not fail and does not refuse to write rows:
it silently writes one row and completes without any error. -/
theorem write_datafile_no_length_check_counterexample :
    c2traj.length = 2 ∧ ([(1 : ℚ)/2] : List ℚ).length = 1 ∧
    write_datafile c2traj [100, 200] [0, 10] [1/2] [1/4] [1/3] [1/5] =
      Except.ok (write_datafile_loop c2traj [some 110, some 120] [1/2] [1/4] [1/3] [1/5] 0) ∧
    (write_datafile_loop c2traj [some 110, some 120] [1/2] [1/4] [1/3] [1/5] 0).2 = true ∧
    (write_datafile_loop c2traj [some 110, some 120] [1/2] [1/4] [1/3] [1/5] 0).1.length = 1 := by
  have hspec := write_datafile_loop_spec 1 c2traj [some 110, some 120] [1/2] [1/4] [1/3]
    [1/5] 0 (by decide)
  refine ⟨rfl, rfl, ?_, ?_, ?_⟩
  · rw [write_datafile, temps_c2traj]
    rfl
  · exact hspec.2.mpr (Or.inr (by decide))
  · rw [hspec.1]
    decide

lemma sorted_lt_getD (xs : List ℚ) (hs : xs.Sorted (· < ·)) (i j : Nat) (hij : i < j)
    (hj : j < xs.length) : xs.getD i 0 < xs.getD j 0 := by
  have hi : i < xs.length := lt_trans hij hj
  rw [List.getD_eq_getElem xs 0 hi, List.getD_eq_getElem xs 0 hj]
  have := List.pairwise_iff_get.mp hs ⟨i, hi⟩ ⟨j, hj⟩ (Fin.mk_lt_mk.mpr hij)
  simpa using this

lemma searchsorted_iff : ∀ (xs : List ℚ), xs.Sorted (· < ·) → ∀ (v : ℚ) (j : Nat),
    j < xs.length → (xs.getD j 0 < v ↔ j < searchsortedLeft xs v)
  | [], _, v, j, hj => absurd hj (by simp)
  | a :: t, hs, v, j, hj => by
    have hst : t.Sorted (· < ·) := hs.of_cons
    have hat : ∀ x ∈ t, a < x := List.rel_of_sorted_cons hs
    by_cases hav : a < v
    · have hcount : searchsortedLeft (a :: t) v = searchsortedLeft t v + 1 := by
        simp [searchsortedLeft, List.countP_cons, hav]
      cases j with
      | zero =>
        rw [List.getD_cons_zero, hcount]
        simp [hav]
      | succ j' =>
        have hj' : j' < t.length := by simpa using hj
        rw [List.getD_cons_succ, searchsorted_iff t hst v j' hj', hcount]
        omega
    · have hzero : searchsortedLeft t v = 0 := by
        rw [searchsortedLeft, List.countP_eq_zero]
        intro x hx
        simp only [decide_eq_true_eq]
        intro hxv
        exact hav (lt_trans (hat x hx) hxv)
      have hcount : searchsortedLeft (a :: t) v = 0 := by
        simp only [searchsortedLeft, List.countP_cons] at hzero ⊢
        simp [hzero, hav]
      cases j with
      | zero =>
        rw [List.getD_cons_zero, hcount]
        simp [hav]
      | succ j' =>
        have hj' : j' < t.length := by simpa using hj
        rw [List.getD_cons_succ, hcount]
        simp only [Nat.not_lt_zero, iff_false, not_lt]
        have hmem : t.getD j' 0 ∈ t := by
          rw [List.getD_eq_getElem t 0 hj']
          exact List.getElem_mem hj'
        by_contra hlt
        push_neg at hlt
        exact hav (lt_trans (hat _ hmem) hlt)

lemma interp1d_call_at_node (f : Interp1d) (hs : f.xs.Sorted (· < ·))
    (hn : 2 ≤ f.xs.length) (m : Nat) (hm : m < f.xs.length) :
    interp1d_call f (f.xs.getD m 0) = some (f.ys.getD m 0) := by
  have hub : ¬(m < searchsortedLeft f.xs (f.xs.getD m 0)) := by
    rw [← searchsorted_iff f.xs hs _ m hm]
    exact lt_irrefl _
  have hcount : searchsortedLeft f.xs (f.xs.getD m 0) = m := by
    rcases Nat.eq_zero_or_pos m with hm0 | hmpos
    · omega
    · have hlb := (searchsorted_iff f.xs hs (f.xs.getD m 0) (m - 1) (by omega)).mp
        (sorted_lt_getD f.xs hs (m - 1) m (by omega) hm)
      omega
  simp only [interp1d_call, hcount]
  rcases Nat.eq_zero_or_pos m with hm0 | hmpos
  · subst hm0
    have hidx : min (max 0 1) (f.xs.length - 1) = 1 := by omega
    rw [hidx]
    have hlt : f.xs.getD 0 0 < f.xs.getD 1 0 := sorted_lt_getD f.xs hs 0 1 (by omega) (by omega)
    rw [if_neg (by simpa using hlt.ne')]
    have : f.xs.getD 0 0 - f.xs.getD (1 - 1) 0 = 0 := by norm_num
    rw [this, mul_zero, zero_add]
  · have hidx : min (max m 1) (f.xs.length - 1) = m := by omega
    rw [hidx]
    have hlt : f.xs.getD (m - 1) 0 < f.xs.getD m 0 :=
      sorted_lt_getD f.xs hs (m - 1) m (by omega) hm
    rw [if_neg (by simpa using hlt.ne')]
    have hne : f.xs.getD m 0 - f.xs.getD (m - 1) 0 ≠ 0 := by
      exact sub_ne_zero.mpr hlt.ne'
    rw [div_mul_cancel₀ _ hne, sub_add_cancel]

/-- C8: over a strictly increasing table the interpolant is piecewise linear:
within a segment it interpolates linearly between the two tabulated points,
and outside the tabulated range it extrapolates linearly from the nearest
(first or last) segment instead of failing.  The claim's example values
(150 at energy 5, 250 at extrapolated energy 15) instantiate this. -/
theorem interp1d_piecewise_linear (f : Interp1d) (hs : f.xs.Sorted (· < ·))
    (hn : 2 ≤ f.xs.length) (xq : ℚ) :
    (∀ i, i + 1 < f.xs.length → f.xs.getD i 0 ≤ xq → xq ≤ f.xs.getD (i + 1) 0 →
      interp1d_call f xq = some ((f.ys.getD (i + 1) 0 - f.ys.getD i 0) /
        (f.xs.getD (i + 1) 0 - f.xs.getD i 0) * (xq - f.xs.getD i 0) + f.ys.getD i 0)) ∧
    (xq ≤ f.xs.getD 0 0 →
      interp1d_call f xq = some ((f.ys.getD 1 0 - f.ys.getD 0 0) /
        (f.xs.getD 1 0 - f.xs.getD 0 0) * (xq - f.xs.getD 0 0) + f.ys.getD 0 0)) ∧
    (f.xs.getD (f.xs.length - 1) 0 ≤ xq →
      interp1d_call f xq = some ((f.ys.getD (f.xs.length - 1) 0 -
        f.ys.getD (f.xs.length - 2) 0) / (f.xs.getD (f.xs.length - 1) 0 -
        f.xs.getD (f.xs.length - 2) 0) * (xq - f.xs.getD (f.xs.length - 2) 0) +
        f.ys.getD (f.xs.length - 2) 0)) := by
  refine ⟨?_, ?_, ?_⟩
  · intro i hi hlo hhi
    rcases lt_or_eq_of_le hlo with hlt | heq
    · have hcount : searchsortedLeft f.xs xq = i + 1 := by
        have h1 : i < searchsortedLeft f.xs xq :=
          (searchsorted_iff f.xs hs xq i (by omega)).mp hlt
        have h2 : ¬(i + 1 < searchsortedLeft f.xs xq) := by
          rw [← searchsorted_iff f.xs hs xq (i + 1) hi]
          exact not_lt.mpr hhi
        omega
      simp only [interp1d_call, hcount]
      have hidx : min (max (i + 1) 1) (f.xs.length - 1) = i + 1 := by omega
      rw [hidx]
      have hlt2 : f.xs.getD (i + 1 - 1) 0 < f.xs.getD (i + 1) 0 :=
        sorted_lt_getD f.xs hs (i + 1 - 1) (i + 1) (by omega) hi
      rw [if_neg (by simpa using hlt2.ne')]
      simp only [Nat.add_sub_cancel]
    · have hnode := interp1d_call_at_node f hs hn i (by omega)
      rw [← heq, hnode]
      simp
  · intro hlo
    have hcount : searchsortedLeft f.xs xq = 0 := by
      have h0 : ¬(0 < searchsortedLeft f.xs xq) := by
        rw [← searchsorted_iff f.xs hs xq 0 (by omega)]
        exact not_lt.mpr hlo
      omega
    simp only [interp1d_call, hcount]
    have hidx : min (max 0 1) (f.xs.length - 1) = 1 := by omega
    rw [hidx]
    have hlt2 : f.xs.getD (1 - 1) 0 < f.xs.getD 1 0 :=
      sorted_lt_getD f.xs hs (1 - 1) 1 (by omega) (by omega)
    rw [if_neg (by simpa using hlt2.ne')]
  · intro hhi
    have hcount : f.xs.length - 1 ≤ searchsortedLeft f.xs xq := by
      rcases Nat.lt_or_ge 1 f.xs.length with h1 | h1
      · have h2 : f.xs.length - 2 < searchsortedLeft f.xs xq := by
          rw [← searchsorted_iff f.xs hs xq (f.xs.length - 2) (by omega)]
          exact lt_of_lt_of_le
            (sorted_lt_getD f.xs hs (f.xs.length - 2) (f.xs.length - 1) (by omega) (by omega))
            hhi
        omega
      · omega
    have hub : searchsortedLeft f.xs xq ≤ f.xs.length := List.countP_le_length _
    simp only [interp1d_call]
    have hidx : min (max (searchsortedLeft f.xs xq) 1) (f.xs.length - 1) =
        f.xs.length - 1 := by omega
    rw [hidx]
    have hlt2 : f.xs.getD (f.xs.length - 1 - 1) 0 < f.xs.getD (f.xs.length - 1) 0 :=
      sorted_lt_getD f.xs hs (f.xs.length - 1 - 1) (f.xs.length - 1) (by omega) (by omega)
    rw [if_neg (by simpa using hlt2.ne')]
    have heq2 : f.xs.length - 1 - 1 = f.xs.length - 2 := by omega
    rw [heq2]

/-- C7: for every valid partition table — equal-length columns, at least two
points, pairwise-distinct energies — and every energy exactly equal to a
tabulated energy point, temperatureOf returns that point's tabulated
temperature exactly (the embedding works over exact rationals, so there is
no interpolation error at sample points). -/
theorem temperature_exact_at_table_point (T U : List ℚ) (hlen : T.length = U.length)
    (hnodup : U.Nodup) (h2 : 2 ≤ U.length) (j : Nat) (hj : j < U.length)
    (f : Interp1d) (hmk : interp1d_make U T = Except.ok f) :
    interp1d_call f (U.getD j 0) = some (T.getD j 0) := by
  rw [interp1d_make] at hmk
  rw [if_neg (by omega), if_neg (by omega)] at hmk
  injection hmk with hf
  subst hf
  have hperm : ((U.zip T).mergeSort (fun p q => decide (p.1 ≤ q.1))).Perm (U.zip T) :=
    List.mergeSort_perm _ _
  have hlenzip : (U.zip T).length = U.length := by
    rw [List.length_zip]
    omega
  have hxs : (((U.zip T).mergeSort (fun p q => decide (p.1 ≤ q.1))).map Prod.fst).Perm U := by
    have hmap := hperm.map Prod.fst
    rwa [List.map_fst_zip U T (by omega)] at hmap
  have hnodupxs : (((U.zip T).mergeSort (fun p q => decide (p.1 ≤ q.1))).map Prod.fst).Nodup :=
    hxs.nodup_iff.mpr hnodup
  have hle : (((U.zip T).mergeSort (fun p q => decide (p.1 ≤ q.1))).map
      Prod.fst).Pairwise (· ≤ ·) := by
    have hsorted := @List.sorted_mergeSort (ℚ × ℚ) (fun p q => decide (p.1 ≤ q.1))
      (fun a b c hab hbc => by
        simp only [decide_eq_true_eq] at hab hbc ⊢
        exact le_trans hab hbc)
      (fun a b => by simp [le_total])
      (U.zip T)
    rw [List.pairwise_map]
    exact hsorted.imp (fun h => by simpa using h)
  have hsortedlt : (((U.zip T).mergeSort (fun p q => decide (p.1 ≤ q.1))).map
      Prod.fst).Sorted (· < ·) :=
    (hle.and hnodupxs).imp (fun h => lt_of_le_of_ne h.1 h.2)
  have hjz : j < (U.zip T).length := by omega
  have hmem : (U.getD j 0, T.getD j 0) ∈
      (U.zip T).mergeSort (fun p q => decide (p.1 ≤ q.1)) := by
    rw [hperm.mem_iff]
    have hz : (U.zip T).get ⟨j, hjz⟩ = (U.getD j 0, T.getD j 0) := by
      rw [List.getD_eq_getElem U 0 hj, List.getD_eq_getElem T 0 (by omega)]
      simp [List.get_eq_getElem, List.getElem_zip]
    rw [← hz]
    exact List.get_mem _ _ _
  obtain ⟨m, hmlt, hpm⟩ := List.mem_iff_getElem.mp hmem
  have hmlt2 : m < (((U.zip T).mergeSort (fun p q => decide (p.1 ≤ q.1))).map
      Prod.fst).length := by
    simpa using hmlt
  have hxval : (((U.zip T).mergeSort (fun p q => decide (p.1 ≤ q.1))).map
      Prod.fst).getD m 0 = U.getD j 0 := by
    rw [List.getD_eq_getElem _ 0 hmlt2]
    simp only [List.getElem_map, hpm]
  have hyval : (((U.zip T).mergeSort (fun p q => decide (p.1 ≤ q.1))).map
      Prod.snd).getD m 0 = T.getD j 0 := by
    rw [List.getD_eq_getElem _ 0 (by simpa using hmlt)]
    simp only [List.getElem_map, hpm]
  have hnode := interp1d_call_at_node
    ⟨((U.zip T).mergeSort (fun p q => decide (p.1 ≤ q.1))).map Prod.fst,
      ((U.zip T).mergeSort (fun p q => decide (p.1 ≤ q.1))).map Prod.snd⟩
    hsortedlt
    (by
      simp only [List.length_map]
      rw [hperm.length_eq, hlenzip]
      exact h2)
    m hmlt2
  simp only at hnode
  rw [hxval, hyval] at hnode
  exact hnode

/-- Witness for C7 at the table T=[100,200], U=[0,10], queried at the
tabulated energy 0: the result is exactly 100. -/
theorem temperature_exact_at_table_point_witness :
    interp1d_make [0, 10] [100, 200] = Except.ok ⟨[0, 10], [100, 200]⟩ ∧
    ([(0 : ℚ), 10] : List ℚ).Nodup ∧
    interp1d_call ⟨[0, 10], [100, 200]⟩ (([(0 : ℚ), 10] : List ℚ).getD 0 0) =
      some (([(100 : ℚ), 200] : List ℚ).getD 0 0) := by
  have hmk : interp1d_make [0, 10] [100, 200] = Except.ok ⟨[0, 10], [100, 200]⟩ := by
    simp [interp1d_make, List.mergeSort, List.merge]
  exact ⟨hmk, by decide,
    temperature_exact_at_table_point [100, 200] [0, 10] rfl (by decide) (by decide) 0
      (by decide) ⟨[0, 10], [100, 200]⟩ hmk⟩

/-- Witness for C8 at the claim's example: table T=[100,200], E=[0,10];
temperatureOf(5) = 150 within the table and temperatureOf(15) = 250
extrapolated beyond it. -/
theorem interp1d_piecewise_linear_witness :
    interp1d_make [0, 10] [100, 200] = Except.ok ⟨[0, 10], [100, 200]⟩ ∧
    interp1d_call ⟨[0, 10], [100, 200]⟩ 5 = some 150 ∧
    interp1d_call ⟨[0, 10], [100, 200]⟩ 15 = some 250 := by
  have hmk : interp1d_make [0, 10] [100, 200] = Except.ok ⟨[0, 10], [100, 200]⟩ := by
    simp [interp1d_make, List.mergeSort, List.merge]
  have hsorted : ([(0 : ℚ), 10] : List ℚ).Sorted (· < ·) := by
    simp [List.sorted_cons]
  have h5 := (interp1d_piecewise_linear ⟨[0, 10], [100, 200]⟩ hsorted (by decide) 5).1 0
    (by decide) (by norm_num) (by norm_num)
  have h15 := (interp1d_piecewise_linear ⟨[0, 10], [100, 200]⟩ hsorted (by decide) 15).2.2
    (by norm_num)
  refine ⟨hmk, ?_, ?_⟩
  · rw [h5]
    norm_num
  · rw [h15]
    norm_num

/-- C5 (amended): a table with fewer than two points makes interp1d
construction fail with a ValueError, which is surfaced; but tables with
duplicate energy values are NOT rejected — no invertibility or
monotonicity check exists, and evaluation inside a degenerate (repeated
energy) segment silently produces NaN. -/
theorem interp1d_too_few_points_error (T U : List ℚ) (hlen : T.length = U.length)
    (h : U.length < 2) :
    ∃ msg, interp1d_make U T = Except.error msg := by
  rw [interp1d_make, if_neg (by omega), if_pos h]
  exact ⟨_, rfl⟩

/-- Witness for the amended C5: a one-point table is rejected. -/
theorem interp1d_too_few_points_error_witness :
    ([(7 : ℚ)] : List ℚ).length = ([(5 : ℚ)] : List ℚ).length ∧
    ([(5 : ℚ)] : List ℚ).length < 2 ∧
    ∃ msg, interp1d_make [(5 : ℚ)] [(7 : ℚ)] = Except.error msg :=
  ⟨rfl, by decide, interp1d_too_few_points_error [(7 : ℚ)] [(5 : ℚ)] rfl (by decide)⟩

/-- C5 is false in its duplicate-energy part: construction over the table
with energies [5, 5, 7] (temperatures [100, 200, 300]) succeeds — no error
of any kind is raised — even though the energy-to-temperature relation is
not invertible; evaluating the interpolant at the duplicated energy 5 then
silently yields NaN (modelled as none) instead of a surfaced failure. -/
theorem interp1d_duplicate_energies_counterexample :
    interp1d_make [5, 5, 7] [100, 200, 300] =
      Except.ok ⟨[5, 5, 7], [100, 200, 300]⟩ ∧
    (∀ msg, interp1d_make [5, 5, 7] [100, 200, 300] ≠ Except.error msg) ∧
    interp1d_call ⟨[5, 5, 7], [100, 200, 300]⟩ 5 = none := by
  have hmk : interp1d_make [5, 5, 7] [100, 200, 300] =
      Except.ok ⟨[5, 5, 7], [100, 200, 300]⟩ := by
    simp [interp1d_make, List.mergeSort, List.merge]
    norm_num
  refine ⟨hmk, fun msg h => by rw [hmk] at h; exact Except.noConfusion h, ?_⟩
  simp only [interp1d_call, searchsortedLeft]
  norm_num
